import Mathlib

/-!
Shallow embedding of `src/sankey.py` (patient condition-journey Sankey pipeline).

The pipeline has three stages:
* `process_conditions_data` — walks the CSV rows in order keeping a single
  "previous row" slot, and for each adjacent same-patient pair appends the
  whole-day difference `(current.START - previous.START).days` (Python
  `timedelta.days`, which floors toward negative infinity) to the list keyed by
  `(previous.DESCRIPTION, current.DESCRIPTION)` in a `defaultdict(list)`.
* `calculate_total_and_average_time` — per key, `total = sum(diffs)` and
  `average = total / len(diffs) if diffs else 0` (real division, modelled in ℚ).
* `create_sankey_diagram` — enumerates the aggregated map in order, building an
  ordered label registry (`labels` plus `label_map`), parallel `source`,
  `target`, `value` lists, and a `colors` list assigned cyclically from a fixed
  7-entry palette by enumeration index.

Python dicts preserve insertion order, so maps are modelled as association
lists; `datetime` values are modelled as seconds (ℤ) via the proleptic
Gregorian ordinal, matching `datetime.fromisoformat` / `timedelta` semantics.
-/

namespace Sankey

/-- One CSV row: `PATIENT`, `DESCRIPTION`, and the parsed `START` timestamp
(seconds, see `dateSeconds`/`dateTimeSeconds`). -/
structure ConditionRecord where
  patient : String
  description : String
  start_date : Int
deriving DecidableEq, Repr

abbrev JourneyKey := String × String

abbrev JourneyDiffs := List (JourneyKey × List Int)

/-- `journey_time_diffs[journey_key].append(time_diff)` on a `defaultdict(list)`:
append to the existing list for the key, or create a fresh one-element list,
preserving first-seen key insertion order. -/
def appendObs : JourneyDiffs → JourneyKey → Int → JourneyDiffs
  | [], k, v => [(k, [v])]
  | (k', vs) :: rest, k, v =>
      if k' = k then (k', vs ++ [v]) :: rest else (k', vs) :: appendObs rest k v

/-- Association-list lookup for the observation map. -/
def lookupObs : JourneyDiffs → JourneyKey → Option (List Int)
  | [], _ => none
  | (k', vs) :: rest, k => if k' = k then some vs else lookupObs rest k

/-- Python `(start_date - previous_start_date).days`: `timedelta.days` floors
the difference toward negative infinity, in whole days of 86400 seconds. -/
def elapsedDays (prev cur : Int) : Int := Int.fdiv (cur - prev) 86400

/-- The loop state of `process_conditions_data`: the previous-row slot
(`previous_start_date` / `previous_description` / `previous_patient`, all set
together, so a single `Option`) and the accumulated observation map. -/
structure ExtractState where
  previous : Option ConditionRecord
  diffs : JourneyDiffs
deriving Repr

/-- One iteration of the `for row in reader` loop in `process_conditions_data`:
if the previous slot is filled and the patient matches, append the elapsed-day
observation under `(previous_description, description)`; then unconditionally
overwrite the previous slot with the current row. -/
def processStep (st : ExtractState) (r : ConditionRecord) : ExtractState :=
  { previous := some r
    diffs :=
      match st.previous with
      | some p =>
          if p.patient = r.patient then
            appendObs st.diffs (p.description, r.description)
              (elapsedDays p.start_date r.start_date)
          else st.diffs
      | none => st.diffs }

/-- `process_conditions_data`: fold the row loop from the empty state and
return the accumulated `journey_time_diffs`. -/
def process_conditions_data (rows : List ConditionRecord) : JourneyDiffs :=
  (rows.foldl processStep { previous := none, diffs := [] }).diffs

/-- The per-key aggregate stored by `calculate_total_and_average_time`:
`{'average': ..., 'total': ...}`. Python's float division is modelled in ℚ. -/
structure TransitionStats where
  average : ℚ
  total : Int
deriving DecidableEq, Repr

/-- Body of the aggregation loop: `total_time = sum(time_diffs)` and
`average_time = total_time / len(time_diffs) if time_diffs else 0`. -/
def statsOf (time_diffs : List Int) : TransitionStats :=
  { average :=
      if time_diffs = [] then 0
      else (time_diffs.sum : ℚ) / (time_diffs.length : ℚ)
    total := time_diffs.sum }

abbrev JourneyStats := List (JourneyKey × TransitionStats)

/-- `calculate_total_and_average_time`: rebuild the map in the same key order
with per-key stats. -/
def calculate_total_and_average_time (journey_time_diffs : JourneyDiffs) :
    JourneyStats :=
  journey_time_diffs.map (fun e => (e.1, statsOf e.2))

/-- Association-list lookup for the stats map. -/
def lookupStats : JourneyStats → JourneyKey → Option TransitionStats
  | [], _ => none
  | (k', s) :: rest, k => if k' = k then some s else lookupStats rest k

/-- The fixed 7-entry `color_palette` of `create_sankey_diagram`. -/
def color_palette : List String :=
  ["#0077BB", "#33BBEE", "#009988", "#EE7733", "#CC3311", "#EE3377", "#BBBBBB"]

/-- Association-list lookup for `label_map` (a Python dict `str -> int`). -/
def lookupNat : List (String × Nat) → String → Option Nat
  | [], _ => none
  | (k', v) :: rest, k => if k' = k then some v else lookupNat rest k

/-- The accumulating lists of `create_sankey_diagram`. -/
structure BuildState where
  labels : List String
  source : List Nat
  target : List Nat
  value : List Int
  colors : List String
  label_map : List (String × Nat)
deriving Repr

/-- `if cond not in label_map: label_map[cond] = len(labels); labels.append(cond)`. -/
def addCond (st : BuildState) (cond : String) : BuildState :=
  match lookupNat st.label_map cond with
  | some _ => st
  | none =>
      { st with
          label_map := st.label_map ++ [(cond, st.labels.length)]
          labels := st.labels ++ [cond] }

/-- One iteration of `for i, ((from_cond, to_cond), data) in enumerate(...)`:
ensure both conditions are registered (`from_cond` first), then append the
source/target indices, the value `data['total']`, and the cyclic palette color
for enumeration index `i`. -/
def buildStep (st : BuildState) (ie : Nat × (JourneyKey × TransitionStats)) :
    BuildState :=
  let st2 := addCond (addCond st ie.2.1.1) ie.2.1.2
  { labels := st2.labels
    source := st2.source ++ [(lookupNat st2.label_map ie.2.1.1).getD 0]
    target := st2.target ++ [(lookupNat st2.label_map ie.2.1.2).getD 0]
    value := st2.value ++ [ie.2.2.total]
    colors := st2.colors ++ [color_palette.getD (ie.1 % color_palette.length) ""]
    label_map := st2.label_map }

/-- The node-link model handed to the plotly renderer: the `labels`, `source`,
`target`, `value`, `colors` lists of `create_sankey_diagram`. -/
structure DiagramModel where
  labels : List String
  source : List Nat
  target : List Nat
  value : List Int
  colors : List String
deriving DecidableEq, Repr

/-- The builder's starting state: all six lists empty. -/
def initBuildState : BuildState :=
  { labels := [], source := [], target := [], value := [], colors := [], label_map := [] }

/-- `create_sankey_diagram` up to the construction of its data lists (the
subsequent plotly figure construction and file write are external rendering). -/
def create_sankey_diagram (journey_data : JourneyStats) : DiagramModel :=
  let st := journey_data.enum.foldl buildStep initBuildState
  { labels := st.labels, source := st.source, target := st.target
    value := st.value, colors := st.colors }

/-- Proleptic Gregorian leap-year test, as in Python's `datetime`. -/
def isLeapYear (y : Nat) : Bool :=
  y % 4 == 0 && (y % 100 != 0 || y % 400 == 0)

/-- Days in the months strictly before month `m` of a year (leap-adjusted). -/
def daysBeforeMonth (leap : Bool) (m : Nat) : Nat :=
  (match m with
   | 1 => 0 | 2 => 31 | 3 => 59 | 4 => 90 | 5 => 120 | 6 => 151
   | 7 => 181 | 8 => 212 | 9 => 243 | 10 => 273 | 11 => 304 | 12 => 334
   | _ => 0)
  + (if leap && decide (3 ≤ m) then 1 else 0)

/-- `datetime.toordinal()`: day number of `y-m-d` in the proleptic Gregorian
calendar, with 0001-01-01 as day 1. -/
def toOrdinal (y m d : Nat) : Nat :=
  365 * (y - 1) + (y - 1) / 4 - (y - 1) / 100 + (y - 1) / 400
    + daysBeforeMonth (isLeapYear y) m + d

/-- `datetime.fromisoformat("y-m-d")` as seconds. -/
def dateSeconds (y m d : Nat) : Int := (toOrdinal y m d : Int) * 86400

/-- `datetime.fromisoformat("y-m-dThh:mm:ss")` as seconds. -/
def dateTimeSeconds (y m d hh mm ss : Nat) : Int :=
  (toOrdinal y m d : Int) * 86400 + (hh * 3600 + mm * 60 + ss : Nat)

/-- Scenario row (P1, "A", 2020-01-01). -/
def rowA : ConditionRecord :=
  { patient := "P1", description := "A", start_date := dateSeconds 2020 1 1 }

/-- Scenario row (P1, "B", 2020-01-05). -/
def rowB : ConditionRecord :=
  { patient := "P1", description := "B", start_date := dateSeconds 2020 1 5 }

/-- Scenario row (P2, "C", 2020-01-01). -/
def rowC : ConditionRecord :=
  { patient := "P2", description := "C", start_date := dateSeconds 2020 1 1 }

/-- Scenario row (P2, "D", 2020-01-02). -/
def rowD : ConditionRecord :=
  { patient := "P2", description := "D", start_date := dateSeconds 2020 1 2 }

/-- The four rows of the C1 scenario. -/
def scenarioRows : List ConditionRecord := [rowA, rowB, rowC, rowD]

/-- A row for patient P1 at 2020-01-01T10:00:00. -/
def rowTenAM : ConditionRecord :=
  { patient := "P1", description := "A",
    start_date := dateTimeSeconds 2020 1 1 10 0 0 }

/-- A row for patient P1 at 2020-01-01T00:00:00. -/
def rowMidnight : ConditionRecord :=
  { patient := "P1", description := "B",
    start_date := dateTimeSeconds 2020 1 1 0 0 0 }

/-- C1: running the full pipeline on the four rows
(P1,"A",2020-01-01), (P1,"B",2020-01-05), (P2,"C",2020-01-01), (P2,"D",2020-01-02)
yields transitions {(A,B): [4], (C,D): [1]} in that order, stats
{(A,B): total 4, average 4; (C,D): total 1, average 1}, labels [A, B, C, D],
and links source [0,2], target [1,3], value [4,1] in that order. -/
theorem scenario_pipeline_correct :
    process_conditions_data scenarioRows
      = [(("A", "B"), [4]), (("C", "D"), [1])] ∧
    calculate_total_and_average_time (process_conditions_data scenarioRows)
      = [(("A", "B"), { average := 4, total := 4 }),
         (("C", "D"), { average := 1, total := 1 })] ∧
    (create_sankey_diagram
        (calculate_total_and_average_time (process_conditions_data scenarioRows))).labels
      = ["A", "B", "C", "D"] ∧
    (create_sankey_diagram
        (calculate_total_and_average_time (process_conditions_data scenarioRows))).source
      = [0, 2] ∧
    (create_sankey_diagram
        (calculate_total_and_average_time (process_conditions_data scenarioRows))).target
      = [1, 3] ∧
    (create_sankey_diagram
        (calculate_total_and_average_time (process_conditions_data scenarioRows))).value
      = [4, 1] := by
  have h1 : process_conditions_data scenarioRows
      = [(("A", "B"), [4]), (("C", "D"), [1])] := by decide
  have h2 : calculate_total_and_average_time (process_conditions_data scenarioRows)
      = [(("A", "B"), { average := 4, total := 4 }),
         (("C", "D"), { average := 1, total := 1 })] := by
    rw [h1]
    norm_num [calculate_total_and_average_time, statsOf]
  refine ⟨h1, h2, ?_, ?_, ?_, ?_⟩ <;> rw [h2] <;> decide

/-! ### Helper lemmas about the extractor -/

lemma lookupObs_appendObs_self (m : JourneyDiffs) (k : JourneyKey) (v : Int) :
    lookupObs (appendObs m k v) k = some ((lookupObs m k).getD [] ++ [v]) := by
  induction m with
  | nil => simp [appendObs, lookupObs]
  | cons hd tl ih =>
      obtain ⟨k', vs⟩ := hd
      by_cases h : k' = k
      · simp [appendObs, lookupObs, h]
      · simp [appendObs, lookupObs, h, ih]

lemma lookupObs_appendObs_ne (m : JourneyDiffs) (k : JourneyKey) (v : Int)
    (k' : JourneyKey) (hne : k' ≠ k) :
    lookupObs (appendObs m k v) k' = lookupObs m k' := by
  have hkk : ¬k = k' := fun h => hne h.symm
  induction m with
  | nil => simp [appendObs, lookupObs, hkk]
  | cons hd tl ih =>
      obtain ⟨k0, vs⟩ := hd
      by_cases h : k0 = k
      · subst h
        simp [appendObs, lookupObs, hkk]
      · by_cases h' : k0 = k'
        · simp [appendObs, lookupObs, h, h', hkk, hne, ih]
        · simp [appendObs, lookupObs, h, h', ih]

lemma foldl_processStep_previous (rows : List ConditionRecord)
    (st : ExtractState) (r : ConditionRecord) :
    ((rows ++ [r]).foldl processStep st).previous = some r := by
  rw [List.foldl_append]
  rfl

/-- C2: for adjacent records `r1, r2` with equal patient and
`r1.start_date ≤ r2.start_date`, the extractor appends exactly one observation
to the list keyed by `(r1.description, r2.description)` — every other key's
list is untouched — and that observation is the whole-day truncation
`(r2.start_date - r1.start_date) / 86400`, which is nonnegative. -/
theorem adjacent_same_patient_emits (pre : List ConditionRecord)
    (r1 r2 : ConditionRecord) (hpat : r1.patient = r2.patient)
    (hle : r1.start_date ≤ r2.start_date) :
    process_conditions_data (pre ++ [r1, r2])
      = appendObs (process_conditions_data (pre ++ [r1]))
          (r1.description, r2.description)
          (elapsedDays r1.start_date r2.start_date) ∧
    lookupObs (process_conditions_data (pre ++ [r1, r2]))
        (r1.description, r2.description)
      = some ((lookupObs (process_conditions_data (pre ++ [r1]))
            (r1.description, r2.description)).getD []
          ++ [elapsedDays r1.start_date r2.start_date]) ∧
    (∀ k', k' ≠ (r1.description, r2.description) →
      lookupObs (process_conditions_data (pre ++ [r1, r2])) k'
        = lookupObs (process_conditions_data (pre ++ [r1])) k') ∧
    elapsedDays r1.start_date r2.start_date
      = (r2.start_date - r1.start_date) / 86400 ∧
    0 ≤ elapsedDays r1.start_date r2.start_date := by
  have hsplit : pre ++ [r1, r2] = (pre ++ [r1]) ++ [r2] := by simp
  have hprev : ((pre ++ [r1]).foldl processStep
      { previous := none, diffs := [] }).previous = some r1 :=
    foldl_processStep_previous pre _ r1
  have hmain : process_conditions_data (pre ++ [r1, r2])
      = appendObs (process_conditions_data (pre ++ [r1]))
          (r1.description, r2.description)
          (elapsedDays r1.start_date r2.start_date) := by
    unfold process_conditions_data
    rw [hsplit, List.foldl_append]
    show (processStep _ r2).diffs = _
    simp [processStep, hprev, hpat]
  refine ⟨hmain, ?_, ?_, ?_, ?_⟩
  · rw [hmain, lookupObs_appendObs_self]
  · intro k' hk'
    rw [hmain, lookupObs_appendObs_ne _ _ _ _ hk']
  · exact Int.fdiv_eq_ediv _ (by norm_num)
  · exact Int.fdiv_nonneg (by omega) (by norm_num)

/-- Closed instance of `adjacent_same_patient_emits` on the scenario's first
two rows. -/
theorem adjacent_same_patient_emits_witness :
    0 ≤ elapsedDays rowA.start_date rowB.start_date :=
  (adjacent_same_patient_emits [] rowA rowB rfl (by decide)).2.2.2.2

/-! ### Observations come only from adjacent pairs -/

/-- The effect of one adjacent record pair on the observation map (the body of
the extractor loop, with the previous slot made explicit). -/
def pairStep (m : JourneyDiffs) (pc : ConditionRecord × ConditionRecord) :
    JourneyDiffs :=
  if pc.1.patient = pc.2.patient then
    appendObs m (pc.1.description, pc.2.description)
      (elapsedDays pc.1.start_date pc.2.start_date)
  else m

/-- The directly adjacent pairs of the input stream, in order. -/
def adjacentPairs (rows : List ConditionRecord) :
    List (ConditionRecord × ConditionRecord) :=
  rows.zip rows.tail

lemma extract_fold_pairs (rows : List ConditionRecord) :
    ∀ (r : ConditionRecord) (m : JourneyDiffs),
      ((rows.foldl processStep { previous := some r, diffs := m }).diffs)
        = ((r :: rows).zip rows).foldl pairStep m := by
  induction rows with
  | nil => intro r m; rfl
  | cons x xs ih =>
      intro r m
      have hstep : processStep { previous := some r, diffs := m } x
          = { previous := some x, diffs := pairStep m (r, x) } := by
        simp [processStep, pairStep]
      show ((xs.foldl processStep
          (processStep { previous := some r, diffs := m } x)).diffs) = _
      rw [hstep]
      exact ih x (pairStep m (r, x))

/-- C3: a patient change between adjacent records emits nothing but still
replaces the previous-record slot, and, globally, the extractor's output is
exactly a fold of `pairStep` over the stream's directly adjacent pairs — no
observation ever arises from non-adjacent records, even of the same patient. -/
theorem patient_boundary_and_adjacency :
    (∀ (st : ExtractState) (r1 r2 : ConditionRecord),
      st.previous = some r1 → r1.patient ≠ r2.patient →
      (processStep st r2).diffs = st.diffs ∧
      (processStep st r2).previous = some r2) ∧
    (∀ rows : List ConditionRecord,
      process_conditions_data rows = (adjacentPairs rows).foldl pairStep []) := by
  constructor
  · intro st r1 r2 hprev hne
    refine ⟨?_, rfl⟩
    simp [processStep, hprev, hne]
  · intro rows
    cases rows with
    | nil => rfl
    | cons r rest =>
        show ((rest.foldl processStep
            (processStep { previous := none, diffs := [] } r)).diffs) = _
        have h0 : processStep { previous := none, diffs := [] } r
            = { previous := some r, diffs := [] } := rfl
        rw [h0]
        exact extract_fold_pairs rest r []

/-- Closed instance of `patient_boundary_and_adjacency`: a patient boundary on
the scenario's middle pair emits nothing and updates the slot, and the full
scenario output equals the adjacent-pair fold. -/
theorem patient_boundary_and_adjacency_witness :
    ((processStep { previous := some rowB, diffs := [(("A", "B"), [4])] }
        rowC).diffs = [(("A", "B"), [4])] ∧
      (processStep { previous := some rowB, diffs := [(("A", "B"), [4])] }
        rowC).previous = some rowC) ∧
    process_conditions_data scenarioRows
      = (adjacentPairs scenarioRows).foldl pairStep [] :=
  ⟨patient_boundary_and_adjacency.1 _ rowB rowC rfl (by decide),
   patient_boundary_and_adjacency.2 scenarioRows⟩

/-! ### Whole-day conversion on sub-day differences (C9) -/

/-- C9 counterexample: two same-patient rows 10 hours apart in the wrong
order (difference −36000 s, absolute value below 24 h) make the pipeline emit
the observation −1, not 0 — `timedelta.days` floors toward negative infinity. -/
theorem negative_subday_yields_minus_one :
    (rowMidnight.start_date - rowTenAM.start_date < 86400 ∧
     -86400 < rowMidnight.start_date - rowTenAM.start_date ∧
     rowTenAM.patient = rowMidnight.patient) ∧
    process_conditions_data [rowTenAM, rowMidnight]
      = [(("A", "B"), [-1])] ∧
    ([-1] : List Int) ≠ [0] := by
  refine ⟨by decide, by decide, by decide⟩

/-- C9 (amended): for an adjacent same-patient pair the emitted observation is
0 when the start-date difference lies in [0 s, 86400 s), but −1 (not 0) when it
lies in (−86400 s, 0 s): the whole-day conversion floors toward negative
infinity. -/
theorem subday_difference_floor (st : ExtractState) (r1 r2 : ConditionRecord)
    (hprev : st.previous = some r1) (hpat : r1.patient = r2.patient) :
    (0 ≤ r2.start_date - r1.start_date → r2.start_date - r1.start_date < 86400 →
      (processStep st r2).diffs
        = appendObs st.diffs (r1.description, r2.description) 0) ∧
    (-86400 < r2.start_date - r1.start_date → r2.start_date - r1.start_date < 0 →
      (processStep st r2).diffs
        = appendObs st.diffs (r1.description, r2.description) (-1)) := by
  have hd : (processStep st r2).diffs
      = appendObs st.diffs (r1.description, r2.description)
          (elapsedDays r1.start_date r2.start_date) := by
    simp [processStep, hprev, hpat]
  have he : elapsedDays r1.start_date r2.start_date
      = (r2.start_date - r1.start_date) / 86400 :=
    Int.fdiv_eq_ediv _ (by norm_num)
  constructor
  · intro h0 h1
    rw [hd]
    have : elapsedDays r1.start_date r2.start_date = 0 := by rw [he]; omega
    rw [this]
  · intro h0 h1
    rw [hd]
    have : elapsedDays r1.start_date r2.start_date = -1 := by rw [he]; omega
    rw [this]

/-- Closed instance of `subday_difference_floor`: a +10 h gap yields the
observation 0. -/
theorem subday_difference_floor_witness :
    (processStep { previous := some rowMidnight, diffs := [] } rowTenAM).diffs
      = appendObs [] ("B", "A") 0 :=
  (subday_difference_floor { previous := some rowMidnight, diffs := [] }
    rowMidnight rowTenAM rfl rfl).1 (by decide) (by decide)

/-! ### Aggregator: totals and averages -/

lemma lookupStats_calculate (m : JourneyDiffs) (k : JourneyKey) :
    lookupStats (calculate_total_and_average_time m) k
      = (lookupObs m k).map statsOf := by
  induction m with
  | nil => rfl
  | cons hd tl ih =>
      obtain ⟨k0, vs⟩ := hd
      by_cases h : k0 = k
      · simp [calculate_total_and_average_time, lookupStats, lookupObs, h]
      · simpa [calculate_total_and_average_time, lookupStats, lookupObs, h]
          using ih

/-- C4: for every key present in the aggregated map, `total` is the exact sum
of the observations recorded under that key, and that value is invariant under
any permutation of the observation list. -/
theorem total_is_sum_perm_invariant (m : JourneyDiffs) (k : JourneyKey)
    (ds : List Int) (h : lookupObs m k = some ds) :
    lookupStats (calculate_total_and_average_time m) k = some (statsOf ds) ∧
    (statsOf ds).total = ds.sum ∧
    (∀ ds' : List Int, ds.Perm ds' → (statsOf ds').total = (statsOf ds).total) := by
  refine ⟨?_, rfl, ?_⟩
  · rw [lookupStats_calculate, h]
    rfl
  · intro ds' hp
    show ds'.sum = ds.sum
    exact hp.symm.sum_eq

/-- Closed instance of `total_is_sum_perm_invariant` on the list [2, 3] and
its permutation [3, 2]. -/
theorem total_is_sum_perm_invariant_witness :
    lookupStats (calculate_total_and_average_time [(("A", "B"), [2, 3])])
        ("A", "B") = some (statsOf [2, 3]) ∧
    (statsOf [3, 2]).total = (statsOf [2, 3]).total :=
  ⟨(total_is_sum_perm_invariant [(("A", "B"), [2, 3])] ("A", "B") [2, 3]
      (by decide)).1,
   (total_is_sum_perm_invariant [(("A", "B"), [2, 3])] ("A", "B") [2, 3]
      (by decide)).2.2 [3, 2] (by decide)⟩

/-! ### Every observation list produced by the extractor is non-empty -/

lemma appendObs_nonempty (m : JourneyDiffs) (k : JourneyKey) (v : Int)
    (h : ∀ e ∈ m, e.2 ≠ []) : ∀ e ∈ appendObs m k v, e.2 ≠ [] := by
  induction m with
  | nil =>
      intro e he
      simp [appendObs] at he
      subst he
      simp
  | cons hd tl ih =>
      obtain ⟨k0, vs⟩ := hd
      intro e he
      by_cases hk : k0 = k
      · rw [appendObs, if_pos hk] at he
        rcases List.mem_cons.mp he with h1 | h1
        · subst h1; simp
        · exact h e (List.mem_cons_of_mem _ h1)
      · rw [appendObs, if_neg hk] at he
        rcases List.mem_cons.mp he with h1 | h1
        · subst h1
          exact h (k0, vs) (List.mem_cons_self _ _)
        · exact ih (fun e' he' => h e' (List.mem_cons_of_mem _ he')) e h1

lemma foldl_processStep_nonempty (rows : List ConditionRecord) :
    ∀ st : ExtractState, (∀ e ∈ st.diffs, e.2 ≠ []) →
      ∀ e ∈ (rows.foldl processStep st).diffs, e.2 ≠ [] := by
  induction rows with
  | nil => intro st h; exact h
  | cons x xs ih =>
      intro st h
      apply ih
      show ∀ e ∈ (processStep st x).diffs, e.2 ≠ []
      unfold processStep
      cases st.previous with
      | none => exact h
      | some p =>
          by_cases hp : p.patient = x.patient
          · simpa [hp] using appendObs_nonempty st.diffs _ _ h
          · simpa [hp] using h

lemma lookupObs_mem (m : JourneyDiffs) (k : JourneyKey) (ds : List Int)
    (h : lookupObs m k = some ds) : (k, ds) ∈ m := by
  induction m with
  | nil => simp [lookupObs] at h
  | cons hd tl ih =>
      obtain ⟨k0, vs⟩ := hd
      by_cases hk : k0 = k
      · rw [lookupObs, if_pos hk] at h
        subst hk
        obtain rfl : vs = ds := by injection h
        exact List.mem_cons_self _ _
      · rw [lookupObs, if_neg hk] at h
        exact List.mem_cons_of_mem _ (ih h)

/-- C5: `average` is the real (non-truncating) division `total / count` for a
non-empty observation list, the empty list is guarded to average 0, and every
observation list present in an extractor-produced map is non-empty, so the
guard branch is unreachable in the composed pipeline. -/
theorem average_guarded_division :
    (∀ ds : List Int, ds ≠ [] →
      (statsOf ds).average = (ds.sum : ℚ) / (ds.length : ℚ)) ∧
    (statsOf []).average = 0 ∧
    (∀ (rows : List ConditionRecord) (k : JourneyKey) (ds : List Int),
      lookupObs (process_conditions_data rows) k = some ds → ds ≠ []) := by
  refine ⟨?_, rfl, ?_⟩
  · intro ds h
    simp [statsOf, h]
  · intro rows k ds h
    exact foldl_processStep_nonempty rows _ (by simp) (k, ds)
      (lookupObs_mem _ _ _ h)

/-- Closed instance of `average_guarded_division` on the observation list [4]
and the scenario key (A, B). -/
theorem average_guarded_division_witness :
    (statsOf [4]).average
      = (([4] : List Int).sum : ℚ) / (([4] : List Int).length : ℚ) ∧
    ([4] : List Int) ≠ [] :=
  ⟨average_guarded_division.1 [4] (by decide),
   average_guarded_division.2.2 scenarioRows ("A", "B") [4] (by decide)⟩

/-! ### Diagram model builder -/

/-- Spec-side first-seen deduplication step: keep the registry unchanged if the
description is already present, else append it. -/
def dedupStep (acc : List String) (c : String) : List String :=
  if c ∈ acc then acc else acc ++ [c]

/-- The endpoint descriptions of the aggregated keys in key iteration order,
`from` before `to` within each key. -/
def endpointSeq : JourneyStats → List String
  | [] => []
  | e :: rest => e.1.1 :: e.1.2 :: endpointSeq rest

/-- `label_map` marks exactly the descriptions already in `labels`. -/
def InvMap (st : BuildState) : Prop :=
  ∀ c, (lookupNat st.label_map c).isSome ↔ c ∈ st.labels

/-- Every index stored in `label_map` is in bounds for `labels`. -/
def InvBound (st : BuildState) : Prop :=
  ∀ p ∈ st.label_map, p.2 < st.labels.length

/-- The builder loop invariant: registry consistency plus in-bounds indices in
`label_map`, `source` and `target`. -/
def BuildInv (st : BuildState) : Prop :=
  InvMap st ∧ InvBound st ∧
  (∀ s ∈ st.source, s < st.labels.length) ∧
  (∀ t ∈ st.target, t < st.labels.length)

lemma mem_dedupStep_iff (acc : List String) (c x : String) :
    x ∈ dedupStep acc c ↔ x ∈ acc ∨ x = c := by
  by_cases h : c ∈ acc
  · simp only [dedupStep, if_pos h]
    constructor
    · exact Or.inl
    · rintro (hx | rfl)
      · exact hx
      · exact h
  · simp [dedupStep, if_neg h]

lemma nodup_dedupStep (acc : List String) (c : String) (h : acc.Nodup) :
    (dedupStep acc c).Nodup := by
  by_cases hc : c ∈ acc
  · simpa [dedupStep, hc] using h
  · simp [dedupStep, hc, List.nodup_append, h]

lemma dedup_fold_mem (s : List String) :
    ∀ (acc : List String) (x : String),
      x ∈ s.foldl dedupStep acc ↔ x ∈ acc ∨ x ∈ s := by
  induction s with
  | nil => intro acc x; simp
  | cons c cs ih =>
      intro acc x
      show x ∈ cs.foldl dedupStep (dedupStep acc c) ↔ _
      rw [ih, mem_dedupStep_iff]
      simp [or_assoc]

lemma dedup_fold_nodup (s : List String) :
    ∀ acc : List String, acc.Nodup → (s.foldl dedupStep acc).Nodup := by
  induction s with
  | nil => intro acc h; exact h
  | cons c cs ih => intro acc h; exact ih _ (nodup_dedupStep acc c h)

lemma lookupNat_append_some (mp : List (String × Nat)) (c : String) (v : Nat)
    (l : List (String × Nat)) (h : lookupNat mp c = some v) :
    lookupNat (mp ++ l) c = some v := by
  induction mp with
  | nil => simp [lookupNat] at h
  | cons hd tl ih =>
      obtain ⟨k0, v0⟩ := hd
      by_cases hk : k0 = c
      · rw [lookupNat, if_pos hk] at h
        show lookupNat ((k0, v0) :: (tl ++ l)) c = some v
        rw [lookupNat, if_pos hk]
        exact h
      · rw [lookupNat, if_neg hk] at h
        show lookupNat ((k0, v0) :: (tl ++ l)) c = some v
        rw [lookupNat, if_neg hk]
        exact ih h

lemma lookupNat_append_none (mp : List (String × Nat)) (c c' : String) (n : Nat)
    (h : lookupNat mp c' = none) :
    lookupNat (mp ++ [(c, n)]) c' = if c = c' then some n else none := by
  induction mp with
  | nil => rfl
  | cons hd tl ih =>
      obtain ⟨k0, v0⟩ := hd
      by_cases hk : k0 = c'
      · rw [lookupNat, if_pos hk] at h
        exact absurd h (by simp)
      · rw [lookupNat, if_neg hk] at h
        show lookupNat ((k0, v0) :: (tl ++ [(c, n)])) c' = _
        rw [lookupNat, if_neg hk]
        exact ih h

lemma lookupNat_mem (mp : List (String × Nat)) (c : String) (v : Nat)
    (h : lookupNat mp c = some v) : (c, v) ∈ mp := by
  induction mp with
  | nil => simp [lookupNat] at h
  | cons hd tl ih =>
      obtain ⟨k0, v0⟩ := hd
      by_cases hk : k0 = c
      · rw [lookupNat, if_pos hk] at h
        obtain rfl : v0 = v := by injection h
        subst hk
        exact List.mem_cons_self _ _
      · rw [lookupNat, if_neg hk] at h
        exact List.mem_cons_of_mem _ (ih h)

lemma addCond_labels (st : BuildState) (c : String) (h : InvMap st) :
    (addCond st c).labels = dedupStep st.labels c := by
  cases hc : lookupNat st.label_map c with
  | some v =>
      have hmem : c ∈ st.labels := (h c).mp (by simp [hc])
      simp [addCond, hc, dedupStep, hmem]
  | none =>
      have hmem : c ∉ st.labels := fun hm => by
        have := (h c).mpr hm
        simp [hc] at this
      simp [addCond, hc, dedupStep, hmem]

lemma addCond_invmap (st : BuildState) (c : String) (h : InvMap st) :
    InvMap (addCond st c) := by
  cases hc : lookupNat st.label_map c with
  | some v => simpa [addCond, hc] using h
  | none =>
      intro c'
      show (lookupNat (addCond st c).label_map c').isSome
          ↔ c' ∈ (addCond st c).labels
      have hlm : (addCond st c).label_map
          = st.label_map ++ [(c, st.labels.length)] := by simp [addCond, hc]
      have hlb : (addCond st c).labels = st.labels ++ [c] := by
        simp [addCond, hc]
      rw [hlm, hlb]
      cases hc' : lookupNat st.label_map c' with
      | some v' =>
          rw [lookupNat_append_some _ _ _ _ hc']
          have : c' ∈ st.labels := (h c').mp (by simp [hc'])
          simp [this]
      | none =>
          rw [lookupNat_append_none _ _ _ _ hc']
          have hnm : c' ∉ st.labels := fun hm => by
            have := (h c').mpr hm
            simp [hc'] at this
          by_cases he : c = c'
          · simp [he, hnm]
          · simp [he, hnm, Ne.symm he]

lemma addCond_invbound (st : BuildState) (c : String) (h : InvBound st) :
    InvBound (addCond st c) := by
  cases hc : lookupNat st.label_map c with
  | some v => simpa [addCond, hc] using h
  | none =>
      intro p hp
      show p.2 < (addCond st c).labels.length
      have hlm : (addCond st c).label_map
          = st.label_map ++ [(c, st.labels.length)] := by simp [addCond, hc]
      have hlb : (addCond st c).labels = st.labels ++ [c] := by
        simp [addCond, hc]
      rw [hlm] at hp
      rw [hlb]
      rcases List.mem_append.mp hp with h1 | h1
      · calc p.2 < st.labels.length := h p h1
          _ ≤ (st.labels ++ [c]).length := by simp
      · have : p = (c, st.labels.length) := by simpa using h1
        subst this
        simp

lemma addCond_source (st : BuildState) (c : String) :
    (addCond st c).source = st.source := by
  cases hc : lookupNat st.label_map c <;> simp [addCond, hc]

lemma addCond_target (st : BuildState) (c : String) :
    (addCond st c).target = st.target := by
  cases hc : lookupNat st.label_map c <;> simp [addCond, hc]

lemma addCond_value (st : BuildState) (c : String) :
    (addCond st c).value = st.value := by
  cases hc : lookupNat st.label_map c <;> simp [addCond, hc]

lemma addCond_colors (st : BuildState) (c : String) :
    (addCond st c).colors = st.colors := by
  cases hc : lookupNat st.label_map c <;> simp [addCond, hc]

lemma addCond_labels_le (st : BuildState) (c : String) :
    st.labels.length ≤ (addCond st c).labels.length := by
  cases hc : lookupNat st.label_map c <;> simp [addCond, hc]

lemma addCond_lookup_self (st : BuildState) (c : String) :
    (lookupNat (addCond st c).label_map c).isSome := by
  cases hc : lookupNat st.label_map c with
  | some v => simp [addCond, hc]
  | none =>
      have hlm : (addCond st c).label_map
          = st.label_map ++ [(c, st.labels.length)] := by simp [addCond, hc]
      rw [hlm, lookupNat_append_none _ _ _ _ hc]
      simp

lemma addCond_lookup_mono (st : BuildState) (c c' : String)
    (h : (lookupNat st.label_map c').isSome) :
    (lookupNat (addCond st c).label_map c').isSome := by
  cases hc : lookupNat st.label_map c with
  | some v => simpa [addCond, hc] using h
  | none =>
      obtain ⟨v', hv'⟩ := Option.isSome_iff_exists.mp h
      have hlm : (addCond st c).label_map
          = st.label_map ++ [(c, st.labels.length)] := by simp [addCond, hc]
      rw [hlm, lookupNat_append_some _ _ _ _ hv']
      simp

lemma buildStep_spec (st : BuildState) (i : Nat)
    (e : JourneyKey × TransitionStats) (h : BuildInv st) :
    BuildInv (buildStep st (i, e)) ∧
    (buildStep st (i, e)).labels = dedupStep (dedupStep st.labels e.1.1) e.1.2 ∧
    (buildStep st (i, e)).source.length = st.source.length + 1 ∧
    (buildStep st (i, e)).target.length = st.target.length + 1 ∧
    (buildStep st (i, e)).value = st.value ++ [e.2.total] ∧
    (buildStep st (i, e)).colors
      = st.colors ++ [color_palette.getD (i % color_palette.length) ""] := by
  obtain ⟨hmap, hbound, hsrc, htgt⟩ := h
  have hmap1 : InvMap (addCond st e.1.1) := addCond_invmap _ _ hmap
  have hmap2 : InvMap (addCond (addCond st e.1.1) e.1.2) := addCond_invmap _ _ hmap1
  have hbound1 : InvBound (addCond st e.1.1) := addCond_invbound _ _ hbound
  have hbound2 : InvBound (addCond (addCond st e.1.1) e.1.2) :=
    addCond_invbound _ _ hbound1
  have hlab2 : (addCond (addCond st e.1.1) e.1.2).labels
      = dedupStep (dedupStep st.labels e.1.1) e.1.2 := by
    rw [addCond_labels _ _ hmap1, addCond_labels _ _ hmap]
  have hle : st.labels.length ≤ (addCond (addCond st e.1.1) e.1.2).labels.length :=
    le_trans (addCond_labels_le st e.1.1) (addCond_labels_le _ e.1.2)
  have hsrc2 : (addCond (addCond st e.1.1) e.1.2).source = st.source := by
    rw [addCond_source, addCond_source]
  have htgt2 : (addCond (addCond st e.1.1) e.1.2).target = st.target := by
    rw [addCond_target, addCond_target]
  have hval2 : (addCond (addCond st e.1.1) e.1.2).value = st.value := by
    rw [addCond_value, addCond_value]
  have hcol2 : (addCond (addCond st e.1.1) e.1.2).colors = st.colors := by
    rw [addCond_colors, addCond_colors]
  have hfs : (lookupNat (addCond (addCond st e.1.1) e.1.2).label_map e.1.1).isSome :=
    addCond_lookup_mono _ _ _ (addCond_lookup_self st e.1.1)
  have hts : (lookupNat (addCond (addCond st e.1.1) e.1.2).label_map e.1.2).isSome :=
    addCond_lookup_self _ e.1.2
  obtain ⟨vf, hvf⟩ := Option.isSome_iff_exists.mp hfs
  obtain ⟨vt, hvt⟩ := Option.isSome_iff_exists.mp hts
  have hvfb : vf < (addCond (addCond st e.1.1) e.1.2).labels.length :=
    hbound2 _ (lookupNat_mem _ _ _ hvf)
  have hvtb : vt < (addCond (addCond st e.1.1) e.1.2).labels.length :=
    hbound2 _ (lookupNat_mem _ _ _ hvt)
  refine ⟨⟨hmap2, hbound2, ?_, ?_⟩, hlab2, ?_, ?_, ?_, ?_⟩
  · intro s hs
    show s < (addCond (addCond st e.1.1) e.1.2).labels.length
    have hs' : s ∈ (addCond (addCond st e.1.1) e.1.2).source
        ++ [(lookupNat (addCond (addCond st e.1.1) e.1.2).label_map e.1.1).getD 0] := hs
    rcases List.mem_append.mp hs' with h1 | h1
    · rw [hsrc2] at h1
      exact lt_of_lt_of_le (hsrc s h1) hle
    · have : s = (lookupNat (addCond (addCond st e.1.1) e.1.2).label_map e.1.1).getD 0 := by
        simpa using h1
      rw [this, hvf]
      exact hvfb
  · intro t ht
    show t < (addCond (addCond st e.1.1) e.1.2).labels.length
    have ht' : t ∈ (addCond (addCond st e.1.1) e.1.2).target
        ++ [(lookupNat (addCond (addCond st e.1.1) e.1.2).label_map e.1.2).getD 0] := ht
    rcases List.mem_append.mp ht' with h1 | h1
    · rw [htgt2] at h1
      exact lt_of_lt_of_le (htgt t h1) hle
    · have : t = (lookupNat (addCond (addCond st e.1.1) e.1.2).label_map e.1.2).getD 0 := by
        simpa using h1
      rw [this, hvt]
      exact hvtb
  · show ((addCond (addCond st e.1.1) e.1.2).source ++ [_]).length = _
    rw [hsrc2]
    simp
  · show ((addCond (addCond st e.1.1) e.1.2).target ++ [_]).length = _
    rw [htgt2]
    simp
  · show (addCond (addCond st e.1.1) e.1.2).value ++ [e.2.total] = _
    rw [hval2]
  · show (addCond (addCond st e.1.1) e.1.2).colors ++ [_] = _
    rw [hcol2]

lemma build_fold (l : JourneyStats) :
    ∀ (i : Nat) (st : BuildState), BuildInv st →
      BuildInv ((l.enumFrom i).foldl buildStep st) ∧
      ((l.enumFrom i).foldl buildStep st).labels
        = (endpointSeq l).foldl dedupStep st.labels ∧
      ((l.enumFrom i).foldl buildStep st).source.length
        = st.source.length + l.length ∧
      ((l.enumFrom i).foldl buildStep st).target.length
        = st.target.length + l.length ∧
      ((l.enumFrom i).foldl buildStep st).value
        = st.value ++ l.map (fun e => e.2.total) ∧
      ((l.enumFrom i).foldl buildStep st).colors
        = st.colors ++ (List.range' i l.length).map
            (fun j => color_palette.getD (j % color_palette.length) "") := by
  induction l with
  | nil =>
      intro i st h
      exact ⟨h, rfl, rfl, rfl, by simp, by simp⟩
  | cons e rest ih =>
      intro i st h
      have hstep := buildStep_spec st i e h
      have hrec := ih (i + 1) (buildStep st (i, e)) hstep.1
      rw [List.enumFrom_cons, List.foldl_cons]
      refine ⟨hrec.1, ?_, ?_, ?_, ?_, ?_⟩
      · rw [hrec.2.1, hstep.2.1]
        rfl
      · rw [hrec.2.2.1, hstep.2.2.1]
        simp only [List.length_cons]
        omega
      · rw [hrec.2.2.2.1, hstep.2.2.2.1]
        simp only [List.length_cons]
        omega
      · rw [hrec.2.2.2.2.1, hstep.2.2.2.2.1]
        simp
      · rw [hrec.2.2.2.2.2, hstep.2.2.2.2.2]
        simp only [List.length_cons, List.range'_succ, List.map_cons]
        simp [List.append_assoc]

lemma buildInv_init : BuildInv initBuildState := by
  refine ⟨fun c => by simp [initBuildState, lookupNat],
    fun p hp => by simp [initBuildState] at hp,
    fun s hs => by simp [initBuildState] at hs,
    fun t ht => by simp [initBuildState] at ht⟩

/-- C6: the diagram's label list holds each distinct endpoint description
exactly once — it is exactly the first-seen-order deduplication of the key
endpoints, `from` checked before `to` within each key — and its length is the
number of distinct descriptions among all key endpoints. -/
theorem labels_distinct_first_seen (m : JourneyStats) :
    (create_sankey_diagram m).labels = (endpointSeq m).foldl dedupStep [] ∧
    (create_sankey_diagram m).labels.Nodup ∧
    (∀ c, c ∈ (create_sankey_diagram m).labels ↔ c ∈ endpointSeq m) ∧
    (create_sankey_diagram m).labels.length = (endpointSeq m).toFinset.card := by
  have hf := build_fold m 0 _ buildInv_init
  have hlab : (create_sankey_diagram m).labels
      = (endpointSeq m).foldl dedupStep [] := hf.2.1
  have hnd : (create_sankey_diagram m).labels.Nodup := by
    rw [hlab]
    exact dedup_fold_nodup _ _ List.nodup_nil
  have hmem : ∀ c, c ∈ (create_sankey_diagram m).labels ↔ c ∈ endpointSeq m := by
    intro c
    rw [hlab, dedup_fold_mem]
    simp
  refine ⟨hlab, hnd, hmem, ?_⟩
  have hfs : (create_sankey_diagram m).labels.toFinset
      = (endpointSeq m).toFinset := by
    ext c
    simp [List.mem_toFinset, hmem c]
  rw [← List.toFinset_card_of_nodup hnd, hfs]

/-- C7: the colors of the diagram's links are exactly the fixed 7-entry palette
read cyclically by link position — the j-th link gets palette entry j mod 7,
regardless of the transition key or its stats. -/
theorem colors_cyclic_palette (m : JourneyStats) :
    (create_sankey_diagram m).colors
      = (List.range m.length).map
          (fun j => color_palette.getD (j % 7) "") ∧
    color_palette.length = 7 := by
  have hf := build_fold m 0 _ buildInv_init
  refine ⟨?_, rfl⟩
  have hc : (create_sankey_diagram m).colors
      = (List.range' 0 m.length).map
          (fun j => color_palette.getD (j % color_palette.length) "") := by
    simpa using hf.2.2.2.2.2
  rw [hc, List.range_eq_range']
  rfl

/-- C10: the diagram has exactly one link per aggregated key, in key iteration
order (the value list is the totals in key order), and every source and target
index is strictly below the label-list length. -/
theorem links_per_key_in_bounds (m : JourneyStats) :
    (create_sankey_diagram m).source.length = m.length ∧
    (create_sankey_diagram m).target.length = m.length ∧
    (create_sankey_diagram m).value = m.map (fun e => e.2.total) ∧
    (∀ s ∈ (create_sankey_diagram m).source,
      s < (create_sankey_diagram m).labels.length) ∧
    (∀ t ∈ (create_sankey_diagram m).target,
      t < (create_sankey_diagram m).labels.length) := by
  have hf := build_fold m 0 _ buildInv_init
  refine ⟨?_, ?_, ?_, ?_, ?_⟩
  · simpa [initBuildState] using hf.2.2.1
  · simpa [initBuildState] using hf.2.2.2.1
  · simpa using hf.2.2.2.2.1
  · exact hf.1.2.2.1
  · exact hf.1.2.2.2

/-- Closed instance of `links_per_key_in_bounds` on a one-key stats map. -/
theorem links_per_key_in_bounds_witness :
    (create_sankey_diagram [(("A", "B"), statsOf [4])]).source.length = 1 ∧
    0 < (create_sankey_diagram [(("A", "B"), statsOf [4])]).labels.length :=
  ⟨(links_per_key_in_bounds [(("A", "B"), statsOf [4])]).1,
   (links_per_key_in_bounds [(("A", "B"), statsOf [4])]).2.2.2.1 0 (by decide)⟩

/-- C8: an empty stream, and likewise a single-record stream, yields an empty
transition map, empty stats, and a diagram model with no labels and no links;
none of the stages errors on empty input. -/
theorem empty_and_singleton_input :
    ∀ r : ConditionRecord,
      process_conditions_data [] = [] ∧
      process_conditions_data [r] = [] ∧
      calculate_total_and_average_time [] = [] ∧
      create_sankey_diagram [] =
        { labels := [], source := [], target := [], value := [], colors := [] } :=
  fun _ => ⟨rfl, rfl, rfl, rfl⟩

end Sankey
